import Mathlib

/-!
Shallow embedding of the Networking-Tests repository: the epoll echo server
(`server.cpp`) and the scalability tester (`tester.cpp`).  Bytes are modelled
as natural numbers below 256, machine `size_t` arithmetic as arithmetic
modulo 2^64, and the environment (datagrams received, read/write results of
the kernel, elapsed wall-clock time) as explicit arguments.
-/

namespace NetworkingTests

/-- `BUFFER_SIZE` from `server.cpp` and `tester.cpp`: all stack buffers hold
1024 bytes. -/
def BUFFER_SIZE : Nat := 1024

/-- `size_t` arithmetic in the C++ sources is modulo `2 ^ 64` (LP64 Linux). -/
def SIZE_T_MOD : Nat := 2 ^ 64

/-- Big-endian decode of four bytes.  `memcpy(&connection_id, buffer, 4)`
followed by `connection_id = ntohl(connection_id)` yields, on every host, the
big-endian (network-order) interpretation of the first four buffer bytes. -/
def beDecode4 (b0 b1 b2 b3 : Nat) : Nat :=
  ((b0 * 256 + b1) * 256 + b2) * 256 + b3

/-- The byte layout written by `memcpy(response, &connection_id, 4)`: the
`uint32_t` is copied in host byte order.  The repository targets Linux on a
little-endian machine (built with plain `g++`, run locally on x86-64), so the
four bytes appear least-significant first. -/
def leEncode4 (v : Nat) : List Nat :=
  [v % 256, v / 256 % 256, v / 65536 % 256, v / 16777216 % 256]

/-- The ASCII bytes of the fixed response marker `"QUIC Echo: "` (11 bytes),
from `memcpy(response + sizeof(uint32_t), "QUIC Echo: ", 11)`. -/
def quicEchoMarker : List Nat :=
  [81, 85, 73, 67, 32, 69, 99, 104, 111, 58, 32]

/-- `memcpy(base + off, src, src.length)` viewed on whole buffers: overlay
`src` on `base` starting at offset `off` (callers keep `off + src.length`
within `base.length`). -/
def writeBytes (base : List Nat) (off : Nat) (src : List Nat) : List Nat :=
  base.take off ++ src ++ base.drop (off + src.length)

/-! ## Pseudo-QUIC datagram handling (`EpollServer::handle_quic_connection`) -/

/-- One entry of the server's `quic_connections_map`: `struct QuicConnection`
(32-bit id, peer address, last-activity time, established flag).  Addresses
and times are abstracted to naturals. -/
structure QuicConnection where
  connection_id : Nat
  client_addr : Nat
  last_activity : Nat
  established : Bool
deriving DecidableEq, Repr

/-- The reactor's pseudo-QUIC state: the id-keyed connection table
(`std::unordered_map<uint32_t, QuicConnection>`, modelled as an association
list with unique keys) plus the `quic_connections` counter. -/
structure QuicState where
  table : List (Nat × QuicConnection)
  quic_connections : Nat
deriving DecidableEq, Repr

/-- The connection-id extraction of `handle_quic_connection`: for a received
datagram of at least 4 bytes, `ntohl` of the first four bytes (big-endian
decode); shorter datagrams leave the id at its initialisation value 0. -/
def quic_connection_id (req : List Nat) : Nat :=
  if 4 ≤ req.length then
    beDecode4 (req.getD 0 0) (req.getD 1 0) (req.getD 2 0) (req.getD 3 0)
  else 0

/-- The track-or-update step on the connection table: if the id is absent a
new record `QuicConnection(id, addr)` is inserted (construction sets
`last_activity` to now and `established` to false) and `quic_connections` is
incremented; if present, only that record's `last_activity` is refreshed. -/
def quic_track (st : QuicState) (id addr now : Nat) : QuicState :=
  match st.table.lookup id with
  | none =>
      { table := st.table ++ [(id, ⟨id, addr, now, false⟩)]
        quic_connections := st.quic_connections + 1 }
  | some _ =>
      { table := st.table.map (fun kv =>
          if kv.1 = id then (kv.1, { kv.2 with last_activity := now }) else kv)
        quic_connections := st.quic_connections }

/-- `std::min((size_t)(bytes_received - sizeof(uint32_t)), (size_t)(BUFFER_SIZE
- sizeof(uint32_t) - 11))`: the subtraction is carried out in `size_t`, so for
`n < 4` it wraps around `2 ^ 64`. -/
def quic_copy_len (n : Nat) : Nat :=
  min ((n + SIZE_T_MOD - 4) % SIZE_T_MOD) (BUFFER_SIZE - 4 - 11)

/-- `response_size = sizeof(uint32_t) + 11 + (bytes_received -
sizeof(uint32_t))`, computed in `size_t` (the inner subtraction wraps for
`n < 4`; the final value, at most 1034 here, converts to `ssize_t`
unchanged). -/
def quic_response_size (n : Nat) : Nat :=
  (4 + 11 + ((n + SIZE_T_MOD - 4) % SIZE_T_MOD)) % SIZE_T_MOD

/-- The arguments `sendto` receives for one pseudo-QUIC response: the full
contents of the 1024-byte `response` stack array, and the byte count
`response_size`. -/
structure QuicSendCall where
  buf : List Nat
  len : Nat
deriving DecidableEq, Repr

/-- The receive buffer contents after `recvfrom` returned `req` (at most 1023
bytes) and `buffer[bytes_received] = '\0'` executed: the datagram bytes, a 0,
then whatever was on the stack (`recvRest`). -/
def quic_recv_buffer (req recvRest : List Nat) : List Nat :=
  req ++ 0 :: recvRest

/-- Construction of the pseudo-QUIC response array and of the byte count
handed to `sendto`, from `handle_quic_connection`: overlay onto the
uninitialised `response` stack bytes (`respInit`, 1024 bytes) the host-order
connection id at offset 0, the marker at offset 4, and `quic_copy_len` bytes
of the receive buffer starting at its offset 4, at offset 15. -/
def quic_build_response (req recvRest respInit : List Nat) : QuicSendCall :=
  let cid := quic_connection_id req
  let copied := ((quic_recv_buffer req recvRest).drop 4).take (quic_copy_len req.length)
  { buf := writeBytes (writeBytes (writeBytes respInit 0 (leEncode4 cid)) 4 quicEchoMarker)
      15 copied
    len := quic_response_size req.length }

/-- One full pseudo-QUIC datagram-handling step (the body of the drain loop
for `bytes_received > 0`): update the connection table for the extracted id
and build the response send call. -/
def handle_quic_datagram (st : QuicState) (req recvRest respInit : List Nat)
    (addr now : Nat) : QuicState × QuicSendCall :=
  (quic_track st (quic_connection_id req) addr now,
   quic_build_response req recvRest respInit)

/-- The bytes the kernel actually reads for `sendto(quic_fd, response,
response_size, ...)`: the first `len` bytes of the response array followed, if
`len` exceeds the array, by adjacent stack memory (`beyond`). -/
def quic_sent_bytes (c : QuicSendCall) (beyond : List Nat) : List Nat :=
  (c.buf ++ beyond).take c.len

/-! ## Plain-datagram echo (`EpollServer::handle_udp_packet`) -/

/-- Result of one `recvfrom` call on the plain-datagram socket. -/
inductive UdpRecvRes where
  | datagram (payload : List Nat) (addr : Nat)
  | wouldBlock
  | err
deriving DecidableEq, Repr

/-- The drain loop of `handle_udp_packet`: each datagram (truncated by
`recvfrom` to the 1024-byte buffer) with `bytes_read > 0` is echoed verbatim
to its sender; a zero-length datagram matches no branch and is skipped;
would-block or an error ends the loop.  The result lists the `sendto` calls
as (bytes, destination address) pairs. -/
def handle_udp_packet : List UdpRecvRes → List (List Nat × Nat)
  | [] => []
  | UdpRecvRes.datagram payload addr :: rest =>
      let received := payload.take BUFFER_SIZE
      if 0 < received.length then (received, addr) :: handle_udp_packet rest
      else handle_udp_packet rest
  | UdpRecvRes.wouldBlock :: _ => []
  | UdpRecvRes.err :: _ => []

/-! ## Stream echo (`EpollServer::handle_tcp_client`) -/

/-- Result of one `write` call on a client stream socket. -/
inductive TcpWriteRes where
  | ok (accepted : Nat)
  | wouldBlock
  | epipe
  | err
deriving DecidableEq, Repr

/-- Result of one `read` call on a client stream socket; `data []` is a
zero-length read, i.e. the peer closed the connection. -/
inductive TcpReadRes where
  | data (bytes : List Nat)
  | wouldBlock
  | err
deriving DecidableEq, Repr

/-- The inner write-retry loop of `handle_tcp_client`: keep calling `write`
on the unwritten remainder.  A successful call accepts at most the requested
count; would-block abandons the remainder (bytes dropped, connection kept);
`EPIPE` or any other error closes the connection.  Returns the bytes actually
written and whether the connection was closed. -/
def tcp_write_loop : List TcpWriteRes → List Nat → List Nat × Bool
  | _, [] => ([], false)
  | [], _ => ([], false)
  | TcpWriteRes.ok k :: rest, remaining =>
      let accepted := min k remaining.length
      let res := tcp_write_loop rest (remaining.drop accepted)
      (remaining.take accepted ++ res.1, res.2)
  | TcpWriteRes.wouldBlock :: _, _ => ([], false)
  | TcpWriteRes.epipe :: _, _ => ([], true)
  | TcpWriteRes.err :: _, _ => ([], true)

/-- The outer read loop of `handle_tcp_client`: read up to 1024 bytes, echo
the chunk through the write loop, repeat; a zero-length read closes the
connection, would-block returns to the reactor, any other read error closes.
Returns all bytes written back to the client, and whether the connection was
closed. -/
def handle_tcp_client : List (TcpReadRes × List TcpWriteRes) → List Nat × Bool
  | [] => ([], false)
  | (TcpReadRes.data bytes, ws) :: rest =>
      let chunk := bytes.take BUFFER_SIZE
      if 0 < chunk.length then
        let w := tcp_write_loop ws chunk
        if w.2 then (w.1, true)
        else
          let t := handle_tcp_client rest
          (w.1 ++ t.1, t.2)
      else ([], true)
  | (TcpReadRes.wouldBlock, _) :: _ => ([], false)
  | (TcpReadRes.err, _) :: _ => ([], true)

/-! ## Percentiles (`ScalabilityTester::calculate_all_percentiles`) -/

/-- The index selection for percentile `p` over `n` sorted samples:
`index = n * p / 100`, decremented by one unless already zero, then clamped
below `n`. -/
def percentile_index (n p : Nat) : Nat :=
  let index0 := n * p / 100
  let index1 := if 0 < index0 then index0 - 1 else index0
  if n ≤ index1 then n - 1 else index1

/-- `calculate_all_percentiles`: an empty sample set yields 100 zeros;
otherwise sort ascending (`std::sort` with the default `<`; modelled by
insertion sort, which produces the same ascending value list on the total
order of the samples) and pick, for each `p` from 1 to 100, the sample at
`percentile_index`.  Latency samples (C++ `double` millisecond values) are
modelled as rationals; the function only compares and selects them. -/
def calculate_all_percentiles (data : List ℚ) : List ℚ :=
  if data.isEmpty then List.replicate 100 0
  else
    let sorted_data := data.insertionSort (fun a b => a ≤ b)
    (List.range 100).map (fun i => sorted_data.getD (percentile_index sorted_data.length (i + 1)) 0)

/-! ## Trial results (`ScalabilityTester::test_with_client_count`) -/

/-- `struct ScalabilityResult` (the timestamp string is omitted; the numeric
`double` fields are modelled as rationals). -/
structure ScalabilityResult where
  client_count : Nat
  throughput_mbps : ℚ
  percentiles : List ℚ
  connections_per_second : ℚ
  peak_concurrent_connections : ℚ
  success_rate : ℚ
  total_requests : Nat
  successful_requests : Nat
deriving DecidableEq

/-- The result computation at the end of `test_with_client_count`, as a
function of the trial's recorded latencies, connection count, duration (ms),
byte total and peak concurrent connections. -/
def compute_result (client_count : Nat) (latencies : List ℚ) (connections : Nat)
    (duration_ms : ℚ) (total_bytes : Nat) (peak : Nat) : ScalabilityResult :=
  { client_count := client_count
    total_requests := latencies.length
    successful_requests := latencies.length
    success_rate := if 0 < latencies.length then 100 else 0
    connections_per_second := (connections : ℚ) / (duration_ms / 1000)
    peak_concurrent_connections := (peak : ℚ)
    throughput_mbps := ((total_bytes : ℚ) / (1024 * 1024)) / (duration_ms / 1000)
    percentiles := calculate_all_percentiles latencies }

/-! ## Result logging (`ScalabilityTester::log_result`) -/

/-- The function-local `static` state of `log_result`. -/
structure LogState where
  tcp_done : Bool
  tcp_tests_completed : Nat
deriving DecidableEq, Repr

/-- One call of `log_result`'s protocol-labelling logic: while `tcp_done` is
false the line is labelled `"TCP"` and the counter incremented, flipping
`tcp_done` once nine TCP tests are counted; afterwards every line is labelled
`"UDP"`.  The result's actual protocol plays no part. -/
def log_protocol_step (st : LogState) : String × LogState :=
  if st.tcp_done then ("UDP", st)
  else
    let completed := st.tcp_tests_completed + 1
    ("TCP", { tcp_done := decide (9 ≤ completed), tcp_tests_completed := completed })

/-- The labels produced by `n` successive `log_result` calls starting from
state `st`. -/
def log_protocols_from (st : LogState) : Nat → List String
  | 0 => []
  | n + 1 =>
      let r := log_protocol_step st
      r.1 :: log_protocols_from r.2 n

/-- The labels of the first `n` logged result lines of one tester run (the
`static` variables start at `false` and `0`). -/
def log_protocols (n : Nat) : List String :=
  log_protocols_from ⟨false, 0⟩ n

/-! ## Load-generator workers (`tcp_client_worker`, `udp_client_worker`) -/

/-- The environment of one worker loop iteration: `pre` is the time elapsing
between the stop-flag check and the send call, `rtt` the time spent inside
send and receive, `send_ok` and `recv_ok` whether those calls returned a
positive count, and `sleep` the random inter-request sleep. -/
structure WorkerIterEnv where
  pre : Nat
  rtt : Nat
  send_ok : Bool
  recv_ok : Bool
  sleep : Nat
deriving DecidableEq, Repr

/-- The send times of a stream worker (`tcp_client_worker`) whose `while
(!stop_test)` loop observes the stop flag raised at absolute time `stopTime`:
at iteration start `t` the flag reads true exactly when `stopTime ≤ t`; a
request is initiated (the `send` call) at `t + pre`; on a failed send or
receive the worker breaks out of the loop; otherwise it sleeps and loops. -/
def tcp_worker_send_times (stopTime : Nat) : Nat → List WorkerIterEnv → List Nat
  | _, [] => []
  | t, e :: rest =>
      if stopTime ≤ t then []
      else
        let s := t + e.pre
        if e.send_ok then
          if e.recv_ok then s :: tcp_worker_send_times stopTime (s + e.rtt + e.sleep) rest
          else [s]
        else [s]

/-- The send times of a datagram worker (`udp_client_worker`): same loop
shape, but neither a failed send nor a missed (timed-out) receive breaks the
loop — the worker sleeps and re-checks the stop flag. -/
def udp_worker_send_times (stopTime : Nat) : Nat → List WorkerIterEnv → List Nat
  | _, [] => []
  | t, e :: rest =>
      if stopTime ≤ t then []
      else
        let s := t + e.pre
        s :: udp_worker_send_times stopTime (s + e.rtt + e.sleep) rest

/-! ## Helper lemmas -/

theorem writeBytes_length (base src : List Nat) (off : Nat)
    (h : off + src.length ≤ base.length) :
    (writeBytes base off src).length = base.length := by
  simp only [writeBytes, List.length_append, List.length_take, List.length_drop]
  omega

theorem writeBytes_take (base src : List Nat) (off k : Nat) (hk : k ≤ off)
    (hoff : off ≤ base.length) :
    (writeBytes base off src).take k = base.take k := by
  unfold writeBytes
  rw [List.append_assoc,
    List.take_append_of_le_length (by rw [List.length_take]; omega),
    List.take_take, min_eq_left hk]

theorem length_leEncode4 (v : Nat) : (leEncode4 v).length = 4 := rfl

theorem quic_build_response_len (req recvRest respInit : List Nat) :
    (quic_build_response req recvRest respInit).len = quic_response_size req.length := rfl

theorem quic_copy_len_le (n : Nat) : quic_copy_len n ≤ 1009 :=
  min_le_right _ _

theorem quic_response_size_eq (n : Nat) (h1 : 1 ≤ n) (h2 : n ≤ 1023) :
    quic_response_size n = n + 11 := by
  unfold quic_response_size SIZE_T_MOD
  omega

theorem quic_buf_length (req recvRest respInit : List Nat)
    (hinit : respInit.length = 1024) :
    (quic_build_response req recvRest respInit).buf.length = 1024 := by
  unfold quic_build_response
  have h1 : (writeBytes respInit 0 (leEncode4 (quic_connection_id req))).length = 1024 := by
    rw [writeBytes_length] <;> simp [length_leEncode4, hinit]
  have h2 : (writeBytes (writeBytes respInit 0 (leEncode4 (quic_connection_id req)))
      4 quicEchoMarker).length = 1024 := by
    rw [writeBytes_length] <;> simp [h1, quicEchoMarker]
  have h3 : (((quic_recv_buffer req recvRest).drop 4).take
      (quic_copy_len req.length)).length ≤ 1009 := by
    simp only [List.length_take]
    exact le_trans (min_le_left _ _) (quic_copy_len_le _)
  rw [writeBytes_length]
  · exact h2
  · rw [h2]; omega

theorem quic_buf_take4 (req recvRest respInit : List Nat)
    (hinit : respInit.length = 1024) :
    (quic_build_response req recvRest respInit).buf.take 4
      = leEncode4 (quic_connection_id req) := by
  unfold quic_build_response
  have h1 : (writeBytes respInit 0 (leEncode4 (quic_connection_id req))).length = 1024 := by
    rw [writeBytes_length] <;> simp [length_leEncode4, hinit]
  have h2 : (writeBytes (writeBytes respInit 0 (leEncode4 (quic_connection_id req)))
      4 quicEchoMarker).length = 1024 := by
    rw [writeBytes_length] <;> simp [h1, quicEchoMarker]
  rw [writeBytes_take _ _ 15 4 (by omega) (by rw [h2]; omega)]
  rw [writeBytes_take _ _ 4 4 (by omega) (by rw [h1]; omega)]
  simp [writeBytes, leEncode4]

theorem percentile_index_lt (n p : Nat) (hn : 0 < n) : percentile_index n p < n := by
  simp only [percentile_index]
  split_ifs <;> omega

theorem percentile_index_mono (n : Nat) {p q : Nat} (hpq : p ≤ q) :
    percentile_index n p ≤ percentile_index n q := by
  have hd : n * p / 100 ≤ n * q / 100 := Nat.div_le_div_right (Nat.mul_le_mul_left n hpq)
  simp only [percentile_index]
  split_ifs <;> omega

theorem percentile_index_100 (n : Nat) (hn : 0 < n) : percentile_index n 100 = n - 1 := by
  have h100 : n * 100 / 100 = n := Nat.mul_div_cancel n (by omega)
  simp only [percentile_index, h100]
  split_ifs <;> omega

theorem sorted_getD_mono (l : List ℚ) (hs : List.Sorted (fun a b : ℚ => a ≤ b) l)
    (i j : Nat) (hij : i ≤ j) (hj : j < l.length) : l.getD i 0 ≤ l.getD j 0 := by
  have hi : i < l.length := lt_of_le_of_lt hij hj
  rw [List.getD_eq_getElem l 0 hi, List.getD_eq_getElem l 0 hj]
  have h := @List.Sorted.rel_get_of_le ℚ (fun a b : ℚ => a ≤ b) ⟨le_refl⟩ l hs ⟨i, hi⟩ ⟨j, hj⟩
    (Fin.mk_le_mk.mpr hij)
  simpa using h

theorem tcp_write_loop_all_ok (oracle : List TcpWriteRes) : ∀ remaining : List Nat,
    (∀ r ∈ oracle, ∃ k, r = TcpWriteRes.ok (k + 1)) →
    remaining.length ≤ oracle.length →
    tcp_write_loop oracle remaining = (remaining, false) := by
  induction oracle with
  | nil =>
      intro remaining _ hlen
      have h0 : remaining = [] := List.eq_nil_of_length_eq_zero (by simpa using hlen)
      subst h0
      rfl
  | cons r rest ih =>
      intro remaining hok hlen
      cases remaining with
      | nil => cases r <;> rfl
      | cons b bs =>
          obtain ⟨k, hr⟩ := hok r (List.mem_cons_self r rest)
          subst hr
          show ((b :: bs).take (min (k + 1) (b :: bs).length) ++
              (tcp_write_loop rest ((b :: bs).drop (min (k + 1) (b :: bs).length))).1,
            (tcp_write_loop rest ((b :: bs).drop (min (k + 1) (b :: bs).length))).2)
              = (b :: bs, false)
          rw [ih ((b :: bs).drop (min (k + 1) (b :: bs).length))
            (fun r2 hr2 => hok r2 (List.mem_cons_of_mem _ hr2))
            (by simp only [List.length_drop, List.length_cons] at *; omega)]
          simp [List.take_append_drop]

theorem quic_sent_bytes_length (c : QuicSendCall) (beyond : List Nat) :
    (quic_sent_bytes c beyond).length = min c.len (c.buf.length + beyond.length) := by
  simp [quic_sent_bytes]

theorem quic_sent_bytes_take4 (c : QuicSendCall) (beyond : List Nat)
    (hlen : 4 ≤ c.len) (hbuf : 4 ≤ c.buf.length) :
    (quic_sent_bytes c beyond).take 4 = c.buf.take 4 := by
  unfold quic_sent_bytes
  rw [List.take_take, min_eq_left hlen, List.take_append_of_le_length hbuf]

theorem log_protocol_step_state (k : Nat) :
    log_protocol_step ⟨decide (9 ≤ k), min k 9⟩
      = (if k < 9 then "TCP" else "UDP", ⟨decide (9 ≤ k + 1), min (k + 1) 9⟩) := by
  unfold log_protocol_step
  by_cases hk : 9 ≤ k
  · have h1 : decide (9 ≤ k) = true := decide_eq_true hk
    have h2 : decide (9 ≤ k + 1) = true := decide_eq_true (by omega)
    have h3 : ¬ k < 9 := by omega
    simp only [h1, h2, if_true, if_neg h3]
    refine congrArg (Prod.mk "UDP") ?_
    have : min k 9 = min (k + 1) 9 := by omega
    rw [this]
  · have h1 : decide (9 ≤ k) = false := decide_eq_false hk
    have h3 : k < 9 := by omega
    have hmin : min k 9 = k := by omega
    have hmin2 : min (k + 1) 9 = k + 1 := by omega
    simp only [h1, Bool.false_eq_true, if_false, if_pos h3, hmin, hmin2]

theorem log_protocols_from_range (m : Nat) : ∀ k,
    log_protocols_from ⟨decide (9 ≤ k), min k 9⟩ m
      = (List.range' k m).map (fun i => if i < 9 then "TCP" else "UDP") := by
  induction m with
  | zero => intro k; rfl
  | succ m ih =>
      intro k
      rw [List.range'_succ, List.map_cons]
      show (log_protocol_step ⟨decide (9 ≤ k), min k 9⟩).1 ::
          log_protocols_from (log_protocol_step ⟨decide (9 ≤ k), min k 9⟩).2 m
        = (if k < 9 then "TCP" else "UDP") ::
          (List.range' (k + 1) m).map (fun i => if i < 9 then "TCP" else "UDP")
      rw [log_protocol_step_state]
      exact congrArg (List.cons _) (ih (k + 1))

theorem lookup_eq_none_iff_keys (l : List (Nat × QuicConnection)) (id : Nat) :
    l.lookup id = none ↔ ∀ p ∈ l, p.1 ≠ id := by
  induction l with
  | nil => simp
  | cons hd tl ih =>
      obtain ⟨k, v⟩ := hd
      by_cases h : id = k
      · subst h
        simp [List.lookup_cons]
      · have hbeq : (id == k) = false := beq_eq_false_iff_ne.mpr h
        simp only [List.lookup_cons, hbeq, List.mem_cons]
        rw [ih]
        constructor
        · rintro hall p (rfl | hp)
          · exact fun hc => h hc.symm
          · exact hall p hp
        · intro hall p hp
          exact hall p (Or.inr hp)

theorem lookup_append_single (l : List (Nat × QuicConnection)) (id : Nat) (r : QuicConnection)
    (h : l.lookup id = none) :
    (l ++ [(id, r)]).lookup id = some r := by
  induction l with
  | nil => simp [List.lookup_cons]
  | cons hd tl ih =>
      obtain ⟨k, v⟩ := hd
      by_cases hk : id = k
      · subst hk
        rw [List.lookup_cons] at h
        simp at h
      · have hbeq : (id == k) = false := beq_eq_false_iff_ne.mpr hk
        rw [List.lookup_cons] at h
        rw [List.cons_append, List.lookup_cons]
        simp only [hbeq] at h ⊢
        exact ih h

theorem lookup_map_refresh (l : List (Nat × QuicConnection)) (id now : Nat)
    (c : QuicConnection) (h : l.lookup id = some c) :
    (l.map (fun kv =>
        if kv.1 = id then (kv.1, { kv.2 with last_activity := now }) else kv)).lookup id
      = some { c with last_activity := now } := by
  induction l with
  | nil => simp at h
  | cons hd tl ih =>
      obtain ⟨k, v⟩ := hd
      by_cases hk : id = k
      · subst hk
        rw [List.lookup_cons] at h
        simp only [beq_self_eq_true] at h
        rw [Option.some_inj] at h
        subst h
        simp [List.lookup_cons]
      · have hbeq : (id == k) = false := beq_eq_false_iff_ne.mpr hk
        rw [List.lookup_cons] at h
        simp only [hbeq] at h
        have hke : ¬ k = id := fun hke => hk hke.symm
        simp only [List.map_cons, if_neg hke]
        rw [List.lookup_cons]
        simp only [hbeq]
        exact ih h

theorem keys_map_refresh (l : List (Nat × QuicConnection)) (id now : Nat) :
    (l.map (fun kv =>
        if kv.1 = id then (kv.1, { kv.2 with last_activity := now }) else kv)).map Prod.fst
      = l.map Prod.fst := by
  rw [List.map_map]
  have hfun : (Prod.fst ∘ fun kv : Nat × QuicConnection =>
      if kv.1 = id then (kv.1, { kv.2 with last_activity := now }) else kv) = Prod.fst := by
    funext kv
    by_cases h : kv.1 = id <;> simp [Function.comp, h]
  rw [hfun]

/-! ## Claim theorems -/

/-- Claim C1 (code bug in the source): at the spec's own example —
a 6-byte pseudo-QUIC datagram carrying big-endian connection id 7 and payload
"hi" — the response does carry the marker and the payload, but its first four
bytes are `[7, 0, 0, 0]`, the host-byte-order layout of the decoded id (the
`memcpy` of the `uint32_t` into the response lacks an `htonl`), and not the
request's first four bytes `[0, 0, 0, 7]` as the claim states. -/
theorem quic_id_bytes_not_echoed :
    quic_sent_bytes (quic_build_response [0, 0, 0, 7, 104, 105] [] (List.replicate 1024 0)) []
        = [7, 0, 0, 0] ++ quicEchoMarker ++ [104, 105] ∧
    [0, 0, 0, 7, 104, 105].take 4 = [0, 0, 0, 7] ∧
    ([7, 0, 0, 0] : List Nat) ≠ [0, 0, 0, 7] := by decide

/-- Claim C2 (code bug in the source): for a maximal received pseudo-QUIC
datagram (1023 bytes, the `recvfrom` cap of `BUFFER_SIZE - 1`), the copy into
`response` is truncated to the buffer, but the count handed to `sendto` is
`bytes_received + 11 = 1034`, exceeding the 1024-byte response buffer: the
send call reads 10 bytes past the buffer. -/
theorem quic_send_len_exceeds_buffer :
    (quic_build_response (List.replicate 1023 65) [] (List.replicate 1024 0)).len = 1034 ∧
    (quic_build_response (List.replicate 1023 65) [] (List.replicate 1024 0)).buf.length
        = BUFFER_SIZE ∧
    BUFFER_SIZE
      < (quic_build_response (List.replicate 1023 65) [] (List.replicate 1024 0)).len := by
  have hlen :
      (quic_build_response (List.replicate 1023 65) [] (List.replicate 1024 0)).len = 1034 := by
    rw [quic_build_response_len, List.length_replicate,
      quic_response_size_eq 1023 (by omega) (by omega)]
  refine ⟨hlen, ?_, ?_⟩
  · rw [quic_buf_length _ _ _ (List.length_replicate 1024 0)]
    rfl
  · rw [hlen]
    show 1024 < 1034
    omega

/-- Claim C6: the trial's success rate is 100 exactly when at least one
latency sample was recorded during the trial, and 0 exactly when none was. -/
theorem success_rate_all_or_nothing (client_count : Nat) (latencies : List ℚ)
    (connections : Nat) (duration_ms : ℚ) (total_bytes peak : Nat) :
    ((compute_result client_count latencies connections duration_ms total_bytes peak).success_rate
        = 100 ↔ latencies ≠ []) ∧
    ((compute_result client_count latencies connections duration_ms total_bytes peak).success_rate
        = 0 ↔ latencies = []) := by
  cases latencies <;> simp [compute_result]

/-- Witness for C6 at a concrete trial with one recorded sample. -/
theorem success_rate_all_or_nothing_witness :
    (compute_result 10 [5] 3 15000 2048 2).success_rate = 100 :=
  (success_rate_all_or_nothing 10 [5] 3 15000 2048 2).1.mpr (by decide)

/-- Claim C9: in every computed Scalability Result, the total-requests field
equals the successful-requests field, both count the recorded latency
samples, and the success rate is 100 exactly when total requests is
positive. -/
theorem total_requests_eq_successful (client_count : Nat) (latencies : List ℚ)
    (connections : Nat) (duration_ms : ℚ) (total_bytes peak : Nat) :
    (compute_result client_count latencies connections duration_ms total_bytes peak).total_requests
        = (compute_result client_count latencies connections duration_ms total_bytes
            peak).successful_requests ∧
    (compute_result client_count latencies connections duration_ms total_bytes peak).total_requests
        = latencies.length ∧
    ((compute_result client_count latencies connections duration_ms total_bytes peak).success_rate
        = 100 ↔
      0 < (compute_result client_count latencies connections duration_ms total_bytes
            peak).total_requests) := by
  refine ⟨rfl, rfl, ?_⟩
  cases latencies <;> simp [compute_result]

/-- Witness for C9 at a concrete trial with two recorded samples. -/
theorem total_requests_eq_successful_witness :
    (compute_result 10 [5, 7] 3 15000 2048 2).total_requests
      = (compute_result 10 [5, 7] 3 15000 2048 2).successful_requests ∧
    (compute_result 10 [5, 7] 3 15000 2048 2).success_rate = 100 :=
  ⟨(total_requests_eq_successful 10 [5, 7] 3 15000 2048 2).1,
   (total_requests_eq_successful 10 [5, 7] 3 15000 2048 2).2.2.mpr (by decide)⟩

/-- Claim C5: one pseudo-QUIC table step preserves the connection-table
invariant: keys stay unique; when the id is unseen, exactly one record is
appended for it (established false, last-activity set to now) and the
connection counter is incremented; when the id is already present, only that
record's last-activity is refreshed, the counter and the key list are
unchanged; and no record is ever removed (every other entry survives
unchanged). -/
theorem quic_track_invariant (st : QuicState) (id addr now : Nat)
    (hkeys : (st.table.map Prod.fst).Nodup) :
    ((quic_track st id addr now).table.map Prod.fst).Nodup ∧
    (st.table.lookup id = none →
        (quic_track st id addr now).table.map Prod.fst = st.table.map Prod.fst ++ [id] ∧
        (quic_track st id addr now).table.lookup id = some ⟨id, addr, now, false⟩ ∧
        (quic_track st id addr now).quic_connections = st.quic_connections + 1) ∧
    (∀ c, st.table.lookup id = some c →
        (quic_track st id addr now).table.map Prod.fst = st.table.map Prod.fst ∧
        (quic_track st id addr now).table.lookup id
            = some ⟨c.connection_id, c.client_addr, now, c.established⟩ ∧
        (quic_track st id addr now).quic_connections = st.quic_connections) ∧
    (∀ k c, (k, c) ∈ st.table → k ≠ id → (k, c) ∈ (quic_track st id addr now).table) ∧
    (∀ k, k ∈ st.table.map Prod.fst → k ∈ (quic_track st id addr now).table.map Prod.fst) := by
  unfold quic_track
  cases h : st.table.lookup id with
  | none =>
      simp only [h]
      have hid : id ∉ st.table.map Prod.fst := by
        intro hmem
        obtain ⟨p, hp, hfst⟩ := List.mem_map.mp hmem
        exact (lookup_eq_none_iff_keys st.table id).mp h p hp hfst
      refine ⟨?_, ?_, ?_, ?_, ?_⟩
      · rw [List.map_append, List.nodup_append]
        refine ⟨hkeys, List.nodup_singleton id, ?_⟩
        intro a ha hb
        simp only [List.map_cons, List.map_nil, List.mem_singleton] at hb
        subst hb
        exact hid ha
      · intro _
        exact ⟨by simp, lookup_append_single _ _ _ h, by trivial⟩
      · intro c hc
        exact Option.noConfusion hc
      · intro k c hmem _
        exact List.mem_append_left _ hmem
      · intro k hk
        rw [List.map_append]
        exact List.mem_append_left _ hk
  | some c0 =>
      simp only [h]
      refine ⟨?_, ?_, ?_, ?_, ?_⟩
      · rw [keys_map_refresh]
        exact hkeys
      · intro hnone
        exact Option.noConfusion hnone
      · intro c hc
        rw [Option.some_inj] at hc
        subst hc
        exact ⟨keys_map_refresh _ _ _, lookup_map_refresh _ _ _ _ h, by trivial⟩
      · intro k c hmem hne
        refine List.mem_map.mpr ⟨(k, c), hmem, ?_⟩
        simp [hne]
      · intro k hk
        rw [keys_map_refresh]
        exact hk

/-- Witness for C5: from the empty table, one datagram for id 5 creates the
record and bumps the counter to 1. -/
theorem quic_track_invariant_witness :
    (quic_track ⟨[], 0⟩ 5 7 3).table.lookup 5 = some ⟨5, 7, 3, false⟩ ∧
    (quic_track ⟨[], 0⟩ 5 7 3).quic_connections = 0 + 1 :=
  ⟨((quic_track_invariant ⟨[], 0⟩ 5 7 3 (by simp)).2.1 (by simp)).2.1,
   ((quic_track_invariant ⟨[], 0⟩ 5 7 3 (by simp)).2.1 (by simp)).2.2⟩

theorem tcp_worker_send_times_stopped (stopTime t : Nat) (env : List WorkerIterEnv)
    (h : stopTime ≤ t) : tcp_worker_send_times stopTime t env = [] := by
  cases env with
  | nil => rfl
  | cons e rest => simp [tcp_worker_send_times, h]

theorem udp_worker_send_times_stopped (stopTime t : Nat) (env : List WorkerIterEnv)
    (h : stopTime ≤ t) : udp_worker_send_times stopTime t env = [] := by
  cases env with
  | nil => rfl
  | cons e rest => simp [udp_worker_send_times, h]

theorem tcp_worker_count_le_one (stopTime : Nat) (env : List WorkerIterEnv) : ∀ t,
    ((tcp_worker_send_times stopTime t env).countP (fun s => decide (stopTime ≤ s))) ≤ 1 := by
  induction env with
  | nil => intro t; simp [tcp_worker_send_times]
  | cons e rest ih =>
      intro t
      by_cases h : stopTime ≤ t
      · simp [tcp_worker_send_times, h]
      · simp only [tcp_worker_send_times, if_neg h]
        cases hsend : e.send_ok
        · simp [List.countP_cons]
          split <;> omega
        · cases hrecv : e.recv_ok
          · simp [List.countP_cons]
            split <;> omega
          · simp only [if_true]
            rw [List.countP_cons]
            by_cases hs : stopTime ≤ t + e.pre
            · rw [tcp_worker_send_times_stopped _ _ rest (by omega)]
              simp [hs]
            · have := ih (t + e.pre + e.rtt + e.sleep)
              simp only [decide_eq_true_eq]
              rw [if_neg hs]
              omega

theorem udp_worker_count_le_one (stopTime : Nat) (env : List WorkerIterEnv) : ∀ t,
    ((udp_worker_send_times stopTime t env).countP (fun s => decide (stopTime ≤ s))) ≤ 1 := by
  induction env with
  | nil => intro t; simp [udp_worker_send_times]
  | cons e rest ih =>
      intro t
      by_cases h : stopTime ≤ t
      · simp [udp_worker_send_times, h]
      · simp only [udp_worker_send_times, if_neg h]
        rw [List.countP_cons]
        by_cases hs : stopTime ≤ t + e.pre
        · rw [udp_worker_send_times_stopped _ _ rest (by omega)]
          simp [hs]
        · have := ih (t + e.pre + e.rtt + e.sleep)
          simp only [decide_eq_true_eq]
          rw [if_neg hs]
          omega

/-- Claim C7: for both worker kinds, once the stop flag is raised (at
absolute time `stopTime`; the flag is monotone, a check at time `t` reads
true exactly when `stopTime ≤ t`), at most one send — the request already
committed by a check that preceded the raise — occurs at or after
`stopTime`; every later check observes the flag and the loop exits, so no
further request is initiated. -/
theorem workers_no_new_request_after_stop (stopTime t : Nat) (env : List WorkerIterEnv) :
    ((tcp_worker_send_times stopTime t env).countP (fun s => decide (stopTime ≤ s))) ≤ 1 ∧
    ((udp_worker_send_times stopTime t env).countP (fun s => decide (stopTime ≤ s))) ≤ 1 :=
  ⟨tcp_worker_count_le_one stopTime env t, udp_worker_count_le_one stopTime env t⟩

/-- Claim C10: the Protocol field of each logged line depends only on the
call order of `log_result`: the first nine calls are labelled "TCP" and every
later call "UDP", whatever the trial's actual protocol was (the result record
is not consulted). -/
theorem log_result_protocol_by_call_order (n : Nat) :
    log_protocols n = (List.range n).map (fun i => if i < 9 then "TCP" else "UDP") := by
  have h := log_protocols_from_range n 0
  simpa [log_protocols, List.range_eq_range'] using h

/-- Claim C8: a pseudo-QUIC datagram of length 1 to 3 is not dropped: the
connection id stays 0, the table record for id 0 is created (counter
incremented) or refreshed, and — because the `size_t` underflow in the copy
length and the wrap-around in `response_size` cancel — the response handed to
`sendto` is exactly `n + 11` bytes long and begins with the four zero id
bytes. -/
theorem quic_short_datagram_handled (st : QuicState) (req recvRest respInit beyond : List Nat)
    (addr now : Nat) (h1 : 1 ≤ req.length) (h3 : req.length ≤ 3)
    (hinit : respInit.length = 1024) :
    quic_connection_id req = 0 ∧
    (handle_quic_datagram st req recvRest respInit addr now).2.len = req.length + 11 ∧
    (st.table.lookup 0 = none →
        (handle_quic_datagram st req recvRest respInit addr now).1.quic_connections
            = st.quic_connections + 1 ∧
        (handle_quic_datagram st req recvRest respInit addr now).1.table.lookup 0
            = some ⟨0, addr, now, false⟩) ∧
    (∀ c, st.table.lookup 0 = some c →
        (handle_quic_datagram st req recvRest respInit addr now).1.quic_connections
            = st.quic_connections ∧
        (handle_quic_datagram st req recvRest respInit addr now).1.table.lookup 0
            = some ⟨c.connection_id, c.client_addr, now, c.established⟩) ∧
    (quic_sent_bytes (handle_quic_datagram st req recvRest respInit addr now).2 beyond).length
        = req.length + 11 ∧
    (quic_sent_bytes (handle_quic_datagram st req recvRest respInit addr now).2 beyond).take 4
        = [0, 0, 0, 0] := by
  have hid : quic_connection_id req = 0 := by
    unfold quic_connection_id
    rw [if_neg (by omega)]
  have hlen : (handle_quic_datagram st req recvRest respInit addr now).2.len
      = req.length + 11 := by
    show (quic_build_response req recvRest respInit).len = req.length + 11
    rw [quic_build_response_len, quic_response_size_eq req.length h1 (by omega)]
  have hbuf : (handle_quic_datagram st req recvRest respInit addr now).2.buf.length = 1024 := by
    show (quic_build_response req recvRest respInit).buf.length = 1024
    exact quic_buf_length _ _ _ hinit
  refine ⟨hid, hlen, ?_, ?_, ?_, ?_⟩
  · intro hnone
    constructor
    · show (quic_track st (quic_connection_id req) addr now).quic_connections
          = st.quic_connections + 1
      rw [hid]
      unfold quic_track
      rw [hnone]
    · show (quic_track st (quic_connection_id req) addr now).table.lookup 0
          = some ⟨0, addr, now, false⟩
      rw [hid]
      unfold quic_track
      rw [hnone]
      exact lookup_append_single _ _ _ hnone
  · intro c hc
    constructor
    · show (quic_track st (quic_connection_id req) addr now).quic_connections
          = st.quic_connections
      rw [hid]
      unfold quic_track
      rw [hc]
    · show (quic_track st (quic_connection_id req) addr now).table.lookup 0
          = some ⟨c.connection_id, c.client_addr, now, c.established⟩
      rw [hid]
      unfold quic_track
      rw [hc]
      exact lookup_map_refresh _ _ _ _ hc
  · rw [quic_sent_bytes_length, hlen, hbuf]
    omega
  · rw [quic_sent_bytes_take4 _ _ (by omega) (by omega)]
    have h4 : (handle_quic_datagram st req recvRest respInit addr now).2.buf.take 4
        = leEncode4 (quic_connection_id req) := by
      show (quic_build_response req recvRest respInit).buf.take 4
          = leEncode4 (quic_connection_id req)
      exact quic_buf_take4 _ _ _ hinit
    rw [h4, hid]
    decide

/-- Witness for C8: a 1-byte datagram from the empty table yields a 12-byte
response whose first four bytes are zero. -/
theorem quic_short_datagram_handled_witness :
    quic_connection_id [104] = 0 ∧
    (quic_sent_bytes (handle_quic_datagram ⟨[], 0⟩ [104] [] (List.replicate 1024 0) 9 2).2
        []).length = [104].length + 11 ∧
    (quic_sent_bytes (handle_quic_datagram ⟨[], 0⟩ [104] [] (List.replicate 1024 0) 9 2).2
        []).take 4 = [0, 0, 0, 0] :=
  ⟨(quic_short_datagram_handled ⟨[], 0⟩ [104] [] (List.replicate 1024 0) [] 9 2
      (by decide) (by decide) (List.length_replicate 1024 0)).1,
   (quic_short_datagram_handled ⟨[], 0⟩ [104] [] (List.replicate 1024 0) [] 9 2
      (by decide) (by decide) (List.length_replicate 1024 0)).2.2.2.2.1,
   (quic_short_datagram_handled ⟨[], 0⟩ [104] [] (List.replicate 1024 0) [] 9 2
      (by decide) (by decide) (List.length_replicate 1024 0)).2.2.2.2.2⟩

/-- Claim C4 counterexample: at two concrete edge inputs the claim as stated
fails.  A zero-length datagram (length 0 ≤ 1024) matches no branch of the
drain loop and is silently skipped — the server sends nothing back, rather
than echoing the empty payload.  And on a stream connection a 1-byte payload
whose echo write would block is dropped: nothing is echoed although the
connection stays open. -/
theorem echo_exactness_fails_at_edges :
    handle_udp_packet [UdpRecvRes.datagram [] 0, UdpRecvRes.wouldBlock] = [] ∧
    handle_udp_packet [UdpRecvRes.datagram [] 0, UdpRecvRes.wouldBlock]
        ≠ [(([] : List Nat), 0)] ∧
    handle_tcp_client
        [(TcpReadRes.data [65], [TcpWriteRes.wouldBlock]), (TcpReadRes.wouldBlock, [])]
        = ([], false) ∧
    ([] : List Nat) ≠ [65] := by decide

/-- Claim C4 (amended): for every payload of length 1 to 1024 bytes, the
plain-datagram port echoes exactly the same bytes to the sender, and an
accepted stream connection echoes exactly the same bytes in order provided
every `write` call the kernel answers accepts at least one byte (no
would-block, broken pipe or error). -/
theorem echo_exact_bytes (payload : List Nat) (addr : Nat) (wOracle : List TcpWriteRes)
    (hlow : 1 ≤ payload.length) (hhigh : payload.length ≤ 1024)
    (hok : ∀ r ∈ wOracle, ∃ k, r = TcpWriteRes.ok (k + 1))
    (hwlen : payload.length ≤ wOracle.length) :
    handle_udp_packet [UdpRecvRes.datagram payload addr, UdpRecvRes.wouldBlock]
        = [(payload, addr)] ∧
    handle_tcp_client [(TcpReadRes.data payload, wOracle), (TcpReadRes.wouldBlock, [])]
        = (payload, false) := by
  have htake : payload.take BUFFER_SIZE = payload :=
    List.take_of_length_le (by simpa [BUFFER_SIZE] using hhigh)
  constructor
  · show (if 0 < (payload.take BUFFER_SIZE).length
        then (payload.take BUFFER_SIZE, addr) :: handle_udp_packet [UdpRecvRes.wouldBlock]
        else handle_udp_packet [UdpRecvRes.wouldBlock]) = [(payload, addr)]
    rw [htake, if_pos (by omega)]
    rfl
  · show (if 0 < (payload.take BUFFER_SIZE).length
        then
          if (tcp_write_loop wOracle (payload.take BUFFER_SIZE)).2 then
            ((tcp_write_loop wOracle (payload.take BUFFER_SIZE)).1, true)
          else
            ((tcp_write_loop wOracle (payload.take BUFFER_SIZE)).1
                ++ (handle_tcp_client [(TcpReadRes.wouldBlock, [])]).1,
              (handle_tcp_client [(TcpReadRes.wouldBlock, [])]).2)
        else ([], true)) = (payload, false)
    rw [htake, if_pos (by omega), tcp_write_loop_all_ok wOracle payload hok hwlen]
    simp [handle_tcp_client]

/-- Witness for C4 (amended) at a concrete 2-byte payload, echoed by the
datagram path and by the stream path through two partial 1-byte writes. -/
theorem echo_exact_bytes_witness :
    handle_udp_packet [UdpRecvRes.datagram [65, 66] 3, UdpRecvRes.wouldBlock]
        = [([65, 66], 3)] ∧
    handle_tcp_client [(TcpReadRes.data [65, 66], [TcpWriteRes.ok 1, TcpWriteRes.ok 1]),
        (TcpReadRes.wouldBlock, [])] = ([65, 66], false) :=
  echo_exact_bytes [65, 66] 3 [TcpWriteRes.ok 1, TcpWriteRes.ok 1] (by decide) (by decide)
    (by rintro r hr; fin_cases hr <;> exact ⟨0, rfl⟩) (by decide)

/-- Claim C3: the percentile computation always yields exactly 100 values;
an empty sample set yields 100 zeros; for a non-empty set the value for
percentile `p` is the ascending-sorted sample at the decrement-and-clamp
index `percentile_index`, the 100 values are ascending, and P100 is the
maximum sample. -/
theorem percentiles_spec (data : List ℚ) :
    (calculate_all_percentiles data).length = 100 ∧
    (data = [] → calculate_all_percentiles data = List.replicate 100 0) ∧
    (data ≠ [] → ∀ p, 1 ≤ p → p ≤ 100 →
        (calculate_all_percentiles data).getD (p - 1) 0
          = (data.insertionSort (fun a b => a ≤ b)).getD (percentile_index data.length p) 0) ∧
    (data ≠ [] → List.Sorted (fun a b : ℚ => a ≤ b) (calculate_all_percentiles data)) ∧
    (data ≠ [] →
        (calculate_all_percentiles data).getD 99 0 ∈ data ∧
        ∀ x ∈ data, x ≤ (calculate_all_percentiles data).getD 99 0) := by
  by_cases hdata : data = []
  · subst hdata
    refine ⟨by simp [calculate_all_percentiles], fun _ => by simp [calculate_all_percentiles],
      fun h => absurd rfl h, fun h => absurd rfl h, fun h => absurd rfl h⟩
  · have hpos : 0 < data.length := List.length_pos.mpr hdata
    have hslen : (data.insertionSort (fun a b => a ≤ b)).length = data.length :=
      List.length_insertionSort _ data
    have hsorted : List.Sorted (fun a b : ℚ => a ≤ b)
        (data.insertionSort (fun a b => a ≤ b)) := List.sorted_insertionSort _ data
    have hperm : (data.insertionSort (fun a b => a ≤ b)).Perm data :=
      List.perm_insertionSort _ data
    have hcalc : calculate_all_percentiles data
        = (List.range 100).map (fun i =>
            (data.insertionSort (fun a b => a ≤ b)).getD
              (percentile_index (data.insertionSort (fun a b => a ≤ b)).length (i + 1)) 0) := by
      unfold calculate_all_percentiles
      rw [if_neg (by simp [hdata])]
    have hgetD : ∀ i, i < 100 → (calculate_all_percentiles data).getD i 0
        = (data.insertionSort (fun a b => a ≤ b)).getD
            (percentile_index data.length (i + 1)) 0 := by
      intro i hi
      rw [hcalc, List.getD_eq_getElem _ _ (by simpa using hi), List.getElem_map,
        List.getElem_range, hslen]
    refine ⟨by rw [hcalc]; simp, fun h => absurd h hdata, ?_, ?_, ?_⟩
    · intro _ p hp1 hp100
      have hp : p - 1 + 1 = p := by omega
      rw [hgetD (p - 1) (by omega), hp]
    · intro _
      rw [hcalc, List.Sorted, List.pairwise_map]
      refine List.Pairwise.imp ?_ (List.pairwise_lt_range 100)
      intro a b hab
      exact sorted_getD_mono _ hsorted _ _
        (by rw [hslen]; exact percentile_index_mono data.length (by omega))
        (by rw [hslen]; exact percentile_index_lt data.length (b + 1) hpos)
    · intro _
      have h99 : (calculate_all_percentiles data).getD 99 0
          = (data.insertionSort (fun a b => a ≤ b)).getD (data.length - 1) 0 := by
        rw [hgetD 99 (by omega), percentile_index_100 data.length hpos]
      have hlast : data.length - 1 < (data.insertionSort (fun a b => a ≤ b)).length := by
        rw [hslen]; omega
      constructor
      · rw [h99, List.getD_eq_getElem _ _ hlast]
        exact hperm.mem_iff.mp (List.getElem_mem hlast)
      · intro x hx
        have hxs : x ∈ data.insertionSort (fun a b => a ≤ b) := hperm.mem_iff.mpr hx
        obtain ⟨⟨j, hj⟩, hget⟩ := List.mem_iff_get.mp hxs
        rw [h99]
        have hxval : x = (data.insertionSort (fun a b => a ≤ b)).getD j 0 := by
          rw [List.getD_eq_getElem _ _ hj]
          simp only [List.get_eq_getElem] at hget
          exact hget.symm
        rw [hxval]
        exact sorted_getD_mono _ hsorted j (data.length - 1) (by rw [hslen] at hj; omega)
          hlast

/-- Witness for C3 at the concrete sample set [3, 1, 2]: P100 is the maximum
sample 3, and the P50 value selects the sorted sample at the clamped index. -/
theorem percentiles_spec_witness :
    (calculate_all_percentiles [3, 1, 2]).getD 99 0 ∈ ([3, 1, 2] : List ℚ) ∧
    (calculate_all_percentiles [3, 1, 2]).getD 49 0
      = (([3, 1, 2] : List ℚ).insertionSort (fun a b => a ≤ b)).getD
          (percentile_index ([3, 1, 2] : List ℚ).length 50) 0 :=
  ⟨((percentiles_spec [3, 1, 2]).2.2.2.2 (by decide)).1,
   (percentiles_spec [3, 1, 2]).2.2.1 (by decide) 50 (by omega) (by omega)⟩

end NetworkingTests
